import Mathlib

/-!
Shallow embedding of the Nishinomiya garbage-calendar application
(`src/app.py`) and proofs about its data-acquisition pipeline.

Modelling conventions:
* Python `datetime.date` values are the `Date` structure below; construction
  of a `datetime.date` succeeds exactly when `validDate` holds (Python
  restricts years to 1..9999 and days to the month length).
* Python `str` values are Lean `String`s.  The regex `(\d+)(.*)` of
  `fetch_calendar_data` is modelled over ASCII digits, and `.*` stops at a
  newline, as in Python.
* Network and HTML effects are passed in explicitly: a month fetch is a
  `FetchResult` (exception, or a status code together with an optional
  table of `td` cell texts), the guide index fetch is an `IndexFetch`, and
  per-guide-page fetching is a function `String → Option String` (`none`
  models both a request exception and a missing content region, which the
  Python code treats identically: the record is skipped).
* `pandas.DataFrame.sort_values` on the single column `date_obj` uses the
  default `kind='quicksort'`, which returns some sorted permutation of the
  rows but is not documented to be stable.  `sortByDate` picks
  `List.mergeSort` as one concrete executable sorted permutation; every
  property proved about the sorted result below (membership, dependence on
  the queried months) is insensitive to which sorted permutation the
  library actually produces, and no stability property is claimed of the
  program.
-/

/-- A calendar date, mirroring Python `datetime.date(year, month, day)`. -/
structure Date where
  year : Nat
  month : Nat
  day : Nat
deriving DecidableEq, Repr

/-- Gregorian leap-year test, as used by `datetime.date`. -/
def isLeap (y : Nat) : Bool :=
  (y % 4 == 0 && y % 100 != 0) || (y % 400 == 0)

/-- Number of days of month `m` of year `y`. -/
def daysInMonth (y m : Nat) : Nat :=
  if m = 2 then (if isLeap y then 29 else 28)
  else if m = 4 ∨ m = 6 ∨ m = 9 ∨ m = 11 then 30
  else 31

/-- Whether `datetime.date(y, m, d)` succeeds (otherwise it raises
`ValueError`).  Python restricts years to `1..9999`. -/
def validDate (y m d : Nat) : Bool :=
  decide (1 ≤ y ∧ y ≤ 9999 ∧ 1 ≤ m ∧ m ≤ 12 ∧ 1 ≤ d ∧ d ≤ daysInMonth y m)

/-- Comparison `a <= b` on Python `datetime.date` values (lexicographic on
year, month, day). -/
def dateLe (a b : Date) : Bool :=
  decide (a.year < b.year ∨ (a.year = b.year ∧
    (a.month < b.month ∨ (a.month = b.month ∧ a.day ≤ b.day))))

/-- Little-endian base-10 digits with explicit fuel, so that the kernel
can evaluate it (Mathlib's `Nat.digits` is defined by well-founded
recursion and does not reduce). -/
def toDigitsRev : Nat → Nat → List Nat
  | 0, _ => []
  | fuel + 1, n => if n = 0 then [] else n % 10 :: toDigitsRev fuel (n / 10)

/-- Little-endian base-10 digits of `n` (`n` itself is always enough
fuel). -/
def natDigits (n : Nat) : List Nat := toDigitsRev n n

/-- Decimal rendering of a `Nat`, mirroring Python `str(n)` for a
non-negative integer. -/
def natToString (n : Nat) : String :=
  if n = 0 then "0" else String.mk (((natDigits n).reverse).map Nat.digitChar)

/-- Reading a big-endian list of digit characters back into a number: this
also models Python `int(s)` on a string of ASCII digits. -/
def parseDigits (cs : List Char) : Nat :=
  cs.foldl (fun a c => 10 * a + (c.toNat - 48)) 0

/-- Length-2 zero padding of the month, mirroring the format spec `:02d`. -/
def pad2 (m : Nat) : String :=
  if m < 10 then "0" ++ natToString m else natToString m

/-- Fixed text of the calendar URL before the `date=` value. -/
def urlHead : String :=
  "https://www.nishi.or.jp/homepage/gomicalendar/calendar_b.html?date="

/-- Fixed text of the calendar URL after the `date=` value (466 is the
city's fixed calendar identifier). -/
def urlTail : String := "&id=466#garbage-calendar"

/-- Embedding of `get_url_by_date`: builds the official calendar URL for a
given year and month, embedding `f"{year}-{month:02d}"`. -/
def get_url_by_date (year month : Nat) : String :=
  urlHead ++ (natToString year ++ "-" ++ pad2 month) ++ urlTail

/-- Weekday labels, Monday first, as in `get_weekday_str`. -/
def weekdays : List String := ["月", "火", "水", "木", "金", "土", "日"]

/-- Days in all years before year `y` (proleptic Gregorian). -/
def daysBeforeYear (y : Nat) : Nat :=
  365 * (y - 1) + (y - 1) / 4 + (y - 1) / 400 - (y - 1) / 100

/-- Days in the months of year `y` strictly before month `m`. -/
def daysBeforeMonth (y m : Nat) : Nat :=
  [0, 31, 59, 90, 120, 151, 181, 212, 243, 273, 304, 334].getD (m - 1) 0 +
    (if 2 < m ∧ isLeap y then 1 else 0)

/-- Ordinal number of the date in the proleptic Gregorian calendar
(0001-01-01 is day 1, a Monday). -/
def rataDie (y m d : Nat) : Nat :=
  daysBeforeYear y + daysBeforeMonth y m + d

/-- Python `date.weekday()`: 0 is Monday, 6 is Sunday. -/
def weekdayIdx (y m d : Nat) : Nat :=
  (rataDie y m d + 6) % 7

/-- Embedding of `get_weekday_str`: the single-character weekday label, or
the empty string when `datetime.date(y, m, d)` would raise `ValueError`. -/
def get_weekday_str (y m d : Nat) : String :=
  if validDate y m d then weekdays.getD (weekdayIdx y m d) "" else ""

/-- One row of the aggregated calendar table: the fields `date_obj`,
`"日付"`, `"曜日"`, `"ゴミの種類"` of the dict built in
`fetch_calendar_data`, in source order. -/
structure Entry where
  date_obj : Date
  hiduke : String
  youbi : String
  gomi : String
deriving DecidableEq, Repr

/-- Embedding of the cell-matching step: `re.match(r"(\d+)(.*)", text)`
after `if text:`.  Returns `int` of the leading digit run and the rest of
the line (Python `.` does not match a newline).  `none` models both an
empty cell and a cell that does not begin with a digit. -/
def parseCell (text : String) : Option (Nat × String) :=
  match text.data with
  | [] => none
  | c :: _ =>
    if c.isDigit then
      some (parseDigits (text.data.takeWhile Char.isDigit),
        String.mk ((text.data.dropWhile Char.isDigit).takeWhile (fun ch => ch != '\n')))
    else none

/-- The dict appended for one accepted cell of the month `(y, m)`. -/
def mkEntry (y m d : Nat) (gomi : String) : Entry :=
  { date_obj := ⟨y, m, d⟩
    hiduke := natToString m ++ "/" ++ natToString d
    youbi := get_weekday_str y m d
    gomi := gomi }

/-- Processing of the data cells of one month's table, in row-major order.
A cell with an invalid day raises `ValueError` at
`datetime.date(year, month, day_num)`; the exception is caught only by the
`except` around the whole month, so the remaining cells of the month are
not processed (entries appended before the exception are kept, since
`all_data` is mutated in place). -/
def processCells (today : Date) (y m : Nat) : List String → List Entry
  | [] => []
  | text :: rest =>
    match parseCell text with
    | none => processCells today y m rest
    | some (day_num, gomi_type) =>
      if validDate y m day_num then
        if dateLe today ⟨y, m, day_num⟩ then
          mkEntry y m day_num gomi_type :: processCells today y m rest
        else
          processCells today y m rest
      else
        []

/-- Outcome of `requests.get` for one month: an exception, or a response
with a status code and the cell texts of the first `table` element (if
any). -/
inductive FetchResult where
  | err : FetchResult
  | ok : Nat → Option (List (List String)) → FetchResult

/-- Entries contributed by one month of the loop in `fetch_calendar_data`:
nothing unless the request succeeded with status 200 and the page has a
table. -/
def processMonth (today : Date) (y m : Nat) (fr : FetchResult) : List Entry :=
  match fr with
  | .err => []
  | .ok status table =>
    if status = 200 then
      match table with
      | none => []
      | some rows => processCells today y m rows.flatten
    else []

/-- The `years_months` list of `fetch_calendar_data`: the current month,
then the next month with year rollover at December. -/
def years_months (y m : Nat) : List (Nat × Nat) :=
  (y, m) :: (if m = 12 then [(y + 1, 1)] else [(y, m + 1)])

/-- The `all_data` list of `fetch_calendar_data` before sorting. -/
def all_data (today : Date) (resp : Nat → Nat → FetchResult) : List Entry :=
  ((years_months today.year today.month).map
    (fun p => processMonth today p.1 p.2 (resp p.1 p.2))).flatten

/-- Model of `df.sort_values('date_obj')`.  pandas' default
`kind='quicksort'` guarantees only a permutation sorted by the column;
`List.mergeSort` is one deterministic choice of such a permutation (it is
additionally stable, which the library default is not — no proof below
relies on that extra property). -/
def sortByDate (l : List Entry) : List Entry :=
  l.mergeSort (fun a b => dateLe a.date_obj b.date_obj)

/-- Embedding of `fetch_calendar_data`, parameterised by the reference
date `now.date()` and by the network outcome for each queried month. -/
def fetch_calendar_data (today : Date) (resp : Nat → Nat → FetchResult) :
    List Entry :=
  sortByDate (all_data today resp)

/-- The key table of `map_guide_to_calendar`, in declaration order (Python
dicts iterate in insertion order). -/
def mapping : List (String × String) :=
  [("もやすごみ", "燃やすごみ"), ("燃やさないごみ", "燃やさないごみ"),
   ("資源A", "資源A"), ("資源B", "資源B"),
   ("その他プラ", "その他プラ"), ("ペットボトル", "ペットボトル")]

/-- Whether `needle` occurs contiguously in `hay`, as Python `needle in hay`
on strings. -/
def hasInfix (needle : List Char) : List Char → Bool
  | [] => needle.isEmpty
  | c :: rest => needle.isPrefixOf (c :: rest) || hasInfix needle rest

/-- Python `needle in hay` for strings. -/
def strContains (hay needle : String) : Bool :=
  hasInfix needle.data hay.data

/-- Embedding of `map_guide_to_calendar`: the value of the first key that
occurs in `guide_title`, else `guide_title` itself. -/
def map_guide_to_calendar (guide_title : String) : String :=
  match mapping.find? (fun p => strContains guide_title p.1) with
  | some p => p.2
  | none => guide_title

/-- One anchor of the guide index page: its `href` attribute (if any) and
its stripped link text. -/
structure Anchor where
  href : Option String
  text : String
deriving DecidableEq, Repr

/-- The keyword list of `fetch_detailed_guide`. -/
def keywords : List String :=
  ["もやすごみ", "燃やさないごみ", "資源", "ペットボトル", "プラ", "危険"]

/-- The candidate `(text, full_url)` contributed by one anchor, if it
qualifies: `href` and `text` truthy and some keyword occurs in the text.
`resolve` stands for `urljoin(base_url, href)`. -/
def qualify (resolve : String → String) (a : Anchor) :
    Option (String × String) :=
  match a.href with
  | none => none
  | some h =>
    if (h != "") && (a.text != "") && keywords.any (fun k => strContains a.text k) then
      some (a.text, resolve h)
    else none

/-- The `target_urls` list before deduplication. -/
def target_urls (resolve : String → String) (links : List Anchor) :
    List (String × String) :=
  links.filterMap (qualify resolve)

/-- One record of the guide list. -/
structure GuideRecord where
  category_name : String
  calendar_name : String
  details : String
  url : String
deriving DecidableEq, Repr

/-- Outcome of fetching and locating content on the guide index page: an
exception, a page without the `main`/`contents` container, or the list of
anchors found in the container. -/
inductive IndexFetch where
  | err : IndexFetch
  | noContent : IndexFetch
  | page : List Anchor → IndexFetch

/-- The deduplicated fetch list `list(set(target_urls))`.  Python's set
iteration order is unspecified; `List.dedup` is one deterministic choice,
and no claim below depends on the order. -/
def guideFetches (resolve : String → String) (links : List Anchor) :
    List (String × String) :=
  (target_urls resolve links).dedup

/-- Embedding of `fetch_detailed_guide`, parameterised by the index-page
outcome and by the per-page fetch `sub` (where `sub url = none` models a
request exception or a missing content container: either way the record is
skipped and the loop continues). -/
def fetch_detailed_guide (resolve : String → String) (idx : IndexFetch)
    (sub : String → Option String) : List GuideRecord :=
  match idx with
  | .err => []
  | .noContent => []
  | .page links =>
    (guideFetches resolve links).filterMap (fun tu =>
      (sub tu.2).map (fun details =>
        { category_name := tu.1
          calendar_name := map_guide_to_calendar tu.1
          details := details
          url := tu.2 }))

/-- A sample network outcome: April 2025 (a 30-day month) answers with a
table whose cells are day 5, the layout-artifact day 31, and day 12; every
other month answers with an empty table. -/
def respW : Nat → Nat → FetchResult := fun y m =>
  if y = 2025 ∧ m = 4 then
    .ok 200 (some [["5燃やすごみ", "31資源A"], ["12ペットボトル"]])
  else .ok 200 (some [])

/-- Number of occurrences of the pair `c` in a candidate list. -/
def countPair (c : String × String) (l : List (String × String)) : Nat :=
  (l.filter (fun x => decide (x = c))).length

/-- Link list for the C5 witness: the same qualifying anchor twice. -/
def linksW : List Anchor :=
  [⟨some "gomi1.html", "もやすごみについて"⟩, ⟨some "gomi1.html", "もやすごみについて"⟩]

/-- Per-page fetch for the C5 witness: every page succeeds. -/
def subW : String → Option String := fun _ => some "出し方の詳細"

theorem dateLe_refl (a : Date) : dateLe a a = true := by
  simp [dateLe]

theorem dateLe_trans {a b c : Date} (h1 : dateLe a b = true)
    (h2 : dateLe b c = true) : dateLe a c = true := by
  simp only [dateLe, decide_eq_true_eq] at h1 h2 ⊢
  omega

theorem dateLe_total (a b : Date) : (dateLe a b || dateLe b a) = true := by
  simp only [dateLe, Bool.or_eq_true, decide_eq_true_eq]
  omega

theorem toDigitsRev_eq_digits :
    ∀ (fuel n : Nat), n ≤ fuel → toDigitsRev fuel n = Nat.digits 10 n := by
  intro fuel
  induction fuel with
  | zero => intro n hn; interval_cases n; simp [toDigitsRev, Nat.digits_zero]
  | succ fuel ih =>
    intro n hn
    by_cases h : n = 0
    · subst h; simp [toDigitsRev, Nat.digits_zero]
    · have hpos : 0 < n := Nat.pos_of_ne_zero h
      rw [toDigitsRev, if_neg h, Nat.digits_def' (by norm_num : (1:Nat) < 10) hpos,
        ih (n / 10) (by omega)]

theorem natDigits_eq_digits (n : Nat) : natDigits n = Nat.digits 10 n :=
  toDigitsRev_eq_digits n n (Nat.le_refl n)

theorem digitChar_toNat {d : Nat} (h : d < 10) :
    (Nat.digitChar d).toNat = 48 + d := by
  interval_cases d <;> rfl

theorem parseDigits_append_singleton (l : List Char) (c : Char) :
    parseDigits (l ++ [c]) = 10 * parseDigits l + (c.toNat - 48) := by
  simp [parseDigits, List.foldl_append]

theorem parseDigits_digits (ds : List Nat) (hd : ∀ d ∈ ds, d < 10) :
    parseDigits ((ds.map Nat.digitChar).reverse) = Nat.ofDigits 10 ds := by
  induction ds with
  | nil => rfl
  | cons d ds ih =>
    have hdlt : d < 10 := hd d (List.mem_cons_self d ds)
    have hrest : ∀ x ∈ ds, x < 10 := fun x hx => hd x (List.mem_cons_of_mem d hx)
    simp only [List.map_cons, List.reverse_cons, parseDigits_append_singleton,
      ih hrest, digitChar_toNat hdlt, Nat.ofDigits_cons]
    omega

theorem parseDigits_natToString (n : Nat) :
    parseDigits (natToString n).data = n := by
  by_cases h : n = 0
  · subst h; rfl
  · have hlt : ∀ d ∈ Nat.digits 10 n, d < 10 :=
      fun d hdm => Nat.digits_lt_base (by norm_num) hdm
    have : (natToString n).data = ((Nat.digits 10 n).map Nat.digitChar).reverse := by
      simp [natToString, h, natDigits_eq_digits, List.map_reverse]
    rw [this, parseDigits_digits _ hlt, Nat.ofDigits_digits]

theorem natToString_injective {a b : Nat}
    (h : natToString a = natToString b) : a = b := by
  have := congrArg (fun s => parseDigits s.data) h
  simpa [parseDigits_natToString] using this

theorem natToString_isDigit (n : Nat) :
    ∀ c ∈ (natToString n).data, c.isDigit = true := by
  by_cases h : n = 0
  · subst h; decide
  · intro c hc
    simp only [natToString, if_neg h, natDigits_eq_digits] at hc
    have hc2 : c ∈ ((Nat.digits 10 n).reverse).map Nat.digitChar := hc
    rcases List.mem_map.mp hc2 with ⟨d, hdm, rfl⟩
    have hdlt : d < 10 := Nat.digits_lt_base (by norm_num) (List.mem_reverse.mp hdm)
    interval_cases d <;> decide

theorem parseDigits_pad2 (m : Nat) : parseDigits (pad2 m).data = m := by
  by_cases h : m < 10
  · have : (pad2 m).data = '0' :: (natToString m).data := by
      simp [pad2, h, String.data_append]
    rw [this]
    have h2 : parseDigits ('0' :: (natToString m).data) =
        parseDigits (natToString m).data := rfl
    rw [h2, parseDigits_natToString]
  · simp only [pad2, if_neg h]
    exact parseDigits_natToString m

theorem pad2_injective {a b : Nat} (h : pad2 a = pad2 b) : a = b := by
  have := congrArg (fun s => parseDigits s.data) h
  simpa [parseDigits_pad2] using this

theorem pad2_isDigit (m : Nat) : ∀ c ∈ (pad2 m).data, c.isDigit = true := by
  intro c hc
  by_cases h : m < 10
  · simp only [pad2, if_pos h, String.data_append] at hc
    rcases List.mem_append.mp hc with h0 | h0
    · have hc0 : c = '0' := by simpa using h0
      subst hc0; decide
    · exact natToString_isDigit m c h0
  · simp only [pad2, if_neg h] at hc
    exact natToString_isDigit m c hc

/-- Sanity checks of the weekday model against known dates: 2000-01-01 and
2025-04-05 were Saturdays, leap day 2024-02-29 was a Thursday, and
2025-02-29 does not exist. -/
theorem get_weekday_str_sanity :
    get_weekday_str 2000 1 1 = "土" ∧ get_weekday_str 2025 4 5 = "土" ∧
    get_weekday_str 2024 2 29 = "木" ∧ get_weekday_str 2025 2 29 = "" := by
  refine ⟨by decide, by decide, by decide, by decide⟩

/-- C1: evaluating the cell loop on an April 2025 table containing the
cells "5燃やすごみ", "31資源A", "12ペットボトル" (reference date
2025-04-01).  Day 31 does not exist in April, so
`datetime.date(2025, 4, 31)` raises `ValueError`; the exception is caught
only by the per-month `except`, so the later cell "12ペットボトル" is never
parsed and only the day-5 entry is produced — the code does not continue
with the remaining cells of the month as the claim states. -/
theorem invalid_day_aborts_month :
    processCells ⟨2025, 4, 1⟩ 2025 4 ["5燃やすごみ", "31資源A", "12ペットボトル"] =
      [mkEntry 2025 4 5 "燃やすごみ"] := by
  decide

/-- C2 counterexample: the key table of `map_guide_to_calendar` spells its
burnable-waste key in hiragana ("もやすごみ"), so no key is a substring of
the kanji title "燃やすごみの日" and the mapper does not return
"燃やすごみ" for it, contrary to the claim. -/
theorem map_kanji_title_not_mapped :
    map_guide_to_calendar "燃やすごみの日" ≠ "燃やすごみ" := by
  decide

/-- C2 (amended): "燃やすごみの日" contains none of the keys, so it is
returned unchanged; a title containing the hiragana key, such as
"もやすごみの日", is mapped to "燃やすごみ" by substring match; and a
string containing no key, such as "unknown category", passes through
unchanged. -/
theorem map_guide_examples :
    map_guide_to_calendar "燃やすごみの日" = "燃やすごみの日" ∧
    map_guide_to_calendar "もやすごみの日" = "燃やすごみ" ∧
    map_guide_to_calendar "unknown category" = "unknown category" := by
  refine ⟨by decide, by decide, by decide⟩

/-- C10: the category mapper is idempotent — every value of its key table
is a fixed point, and unmapped titles pass through unchanged. -/
theorem map_guide_idempotent (t : String) :
    map_guide_to_calendar (map_guide_to_calendar t) = map_guide_to_calendar t := by
  rcases hf : mapping.find? (fun p => strContains t p.1) with _ | p
  · have h1 : map_guide_to_calendar t = t := by
      simp [map_guide_to_calendar, hf]
    rw [h1]
    exact h1
  · have hp : p ∈ mapping := List.mem_of_find?_eq_some hf
    have h1 : map_guide_to_calendar t = p.2 := by
      simp [map_guide_to_calendar, hf]
    rw [h1]
    simp only [mapping, List.mem_cons, List.not_mem_nil, or_false] at hp
    rcases hp with rfl | rfl | rfl | rfl | rfl | rfl <;> decide

/-- C6: every failure mode yields an empty contribution rather than an
exception: a month whose page has no table contributes no entries, as do a
request failure and a non-200 status; and a guide crawl whose index fetch
fails or whose index page lacks the content container returns the empty
list.  (Totality of every acquisition operation on all inputs is by
construction of the embedding, mirroring the blanket `try/except` blocks.) -/
theorem fail_soft_empty_results :
    (∀ today y m s, processMonth today y m (.ok s none) = []) ∧
    (∀ today y m, processMonth today y m .err = []) ∧
    (∀ today y m s t, s ≠ 200 → processMonth today y m (.ok s t) = []) ∧
    (∀ resolve sub, fetch_detailed_guide resolve .err sub = []) ∧
    (∀ resolve sub, fetch_detailed_guide resolve .noContent sub = []) := by
  refine ⟨?_, ?_, ?_, ?_, ?_⟩
  · intro today y m s
    by_cases h : s = 200 <;> simp [processMonth, h]
  · intro today y m; rfl
  · intro today y m s t hs
    simp [processMonth, hs]
  · intro resolve sub; rfl
  · intro resolve sub; rfl

/-- Witness for C6 at a concrete non-200 status. -/
theorem fail_soft_empty_results_witness :
    processMonth ⟨2025, 4, 1⟩ 2025 4 (.ok 404 (some [["5燃やすごみ"]])) = [] :=
  fail_soft_empty_results.2.2.1 ⟨2025, 4, 1⟩ 2025 4 404 (some [["5燃やすごみ"]])
    (by decide)

/-- C4: the aggregation always queries exactly the reference month and the
immediately following month, rolling the year over at December; moreover
the result of `fetch_calendar_data` depends on the network outcome only at
those two (year, month) pairs. -/
theorem two_months_queried :
    (∀ y m, years_months y m =
        [(y, m), if m = 12 then (y + 1, 1) else (y, m + 1)] ∧
      (years_months y m).length = 2) ∧
    (∀ y, years_months y 12 = [(y, 12), (y + 1, 1)]) ∧
    (∀ today r1 r2,
      (∀ p ∈ years_months today.year today.month, r1 p.1 p.2 = r2 p.1 p.2) →
      fetch_calendar_data today r1 = fetch_calendar_data today r2) := by
  refine ⟨?_, ?_, ?_⟩
  · intro y m
    constructor
    · by_cases h : m = 12 <;> simp [years_months, h]
    · by_cases h : m = 12 <;> simp [years_months, h]
  · intro y; simp [years_months]
  · intro today r1 r2 h
    have hmap : (years_months today.year today.month).map
          (fun p => processMonth today p.1 p.2 (r1 p.1 p.2)) =
        (years_months today.year today.month).map
          (fun p => processMonth today p.1 p.2 (r2 p.1 p.2)) :=
      List.map_congr_left (fun p hp => by rw [h p hp])
    unfold fetch_calendar_data all_data
    rw [hmap]

/-- Witness for C4: December 2025 rolls over to January 2026, and the
extensionality consequence applied to one concrete outcome function. -/
theorem two_months_queried_witness :
    years_months 2025 12 = [(2025, 12), (2026, 1)] ∧
    fetch_calendar_data ⟨2025, 12, 1⟩ respW = fetch_calendar_data ⟨2025, 12, 1⟩ respW :=
  ⟨two_months_queried.2.1 2025,
   two_months_queried.2.2 ⟨2025, 12, 1⟩ respW respW (fun _ _ => rfl)⟩

theorem parseCell_all_digits (text : String) (h1 : text.data ≠ [])
    (h2 : ∀ c ∈ text.data, c.isDigit = true) :
    parseCell text = some (parseDigits text.data, "") := by
  have htake : text.data.takeWhile Char.isDigit = text.data :=
    List.takeWhile_eq_self_iff.mpr h2
  have hdrop : text.data.dropWhile Char.isDigit = [] :=
    List.dropWhile_eq_nil_iff.mpr h2
  obtain ⟨l⟩ := text
  cases l with
  | nil => exact absurd rfl h1
  | cons c cs =>
    have hcdig : c.isDigit = true := h2 c (List.mem_cons_self c cs)
    simp only [parseCell, hcdig, if_pos]
    rw [htake, hdrop]
    rfl

/-- C9: a non-empty cell whose text is all digits, denoting a valid date
on or after the reference date, is not skipped: it contributes an entry
whose item label (`"ゴミの種類"`) is the empty string. -/
theorem digit_only_cell_kept (today : Date) (y m : Nat) (text : String)
    (rest : List String) (h1 : text.data ≠ [])
    (h2 : ∀ c ∈ text.data, c.isDigit = true)
    (h3 : validDate y m (parseDigits text.data) = true)
    (h4 : dateLe today ⟨y, m, parseDigits text.data⟩ = true) :
    processCells today y m (text :: rest) =
      mkEntry y m (parseDigits text.data) "" :: processCells today y m rest := by
  have hp := parseCell_all_digits text h1 h2
  simp only [processCells, hp, h3, if_pos, h4]

/-- Witness for C9: the all-digit cell "15" in April 2025. -/
theorem digit_only_cell_kept_witness :
    processCells ⟨2025, 4, 1⟩ 2025 4 ["15"] = [mkEntry 2025 4 15 ""] :=
  digit_only_cell_kept ⟨2025, 4, 1⟩ 2025 4 "15" [] (by decide) (by decide)
    (by decide) (by decide)

theorem processCells_mem (today : Date) (y m : Nat) :
    ∀ (cells : List String), ∀ e ∈ processCells today y m cells,
      ∃ d g, e = mkEntry y m d g ∧ validDate y m d = true ∧
        dateLe today ⟨y, m, d⟩ = true := by
  intro cells
  induction cells with
  | nil => intro e he; simp [processCells] at he
  | cons text rest ih =>
    intro e he
    rcases hp : parseCell text with _ | pr
    · simp only [processCells, hp] at he
      exact ih e he
    · obtain ⟨day_num, gomi⟩ := pr
      simp only [processCells, hp] at he
      by_cases hv : validDate y m day_num = true
      · rw [if_pos hv] at he
        by_cases hle : dateLe today ⟨y, m, day_num⟩ = true
        · rw [if_pos hle] at he
          rcases List.mem_cons.mp he with rfl | hrest
          · exact ⟨day_num, gomi, rfl, hv, hle⟩
          · exact ih e hrest
        · rw [if_neg hle] at he
          exact ih e he
      · rw [if_neg hv] at he
        simp at he

theorem processMonth_mem (today : Date) (y m : Nat) (fr : FetchResult) :
    ∀ e ∈ processMonth today y m fr,
      ∃ d g, e = mkEntry y m d g ∧ validDate y m d = true ∧
        dateLe today ⟨y, m, d⟩ = true := by
  intro e he
  rcases fr with _ | ⟨s, t⟩
  · simp [processMonth] at he
  · simp only [processMonth] at he
    by_cases hs : s = 200
    · rw [if_pos hs] at he
      rcases t with _ | rows
      · simp at he
      · exact processCells_mem today y m rows.flatten e he
    · rw [if_neg hs] at he
      simp at he

theorem all_data_mem (today : Date) (resp : Nat → Nat → FetchResult) :
    ∀ e ∈ all_data today resp,
      ∃ y m d g, e = mkEntry y m d g ∧ validDate y m d = true ∧
        dateLe today ⟨y, m, d⟩ = true := by
  intro e he
  unfold all_data at he
  rw [List.mem_flatten] at he
  obtain ⟨l, hl, hel⟩ := he
  rw [List.mem_map] at hl
  obtain ⟨p, _, rfl⟩ := hl
  obtain ⟨d, g, hdg⟩ := processMonth_mem today p.1 p.2 _ e hel
  exact ⟨p.1, p.2, d, g, hdg⟩

/-- C8: every entry of the aggregated table carries one of the 7 fixed
single-character weekday labels, never the empty string, because entries
are only built for (year, month, day) triples that form a valid date. -/
theorem entry_weekday_valid (today : Date) (resp : Nat → Nat → FetchResult)
    (e : Entry) (h : e ∈ fetch_calendar_data today resp) :
    e.youbi ∈ weekdays ∧ e.youbi ≠ "" := by
  rw [fetch_calendar_data, sortByDate, List.mem_mergeSort] at h
  obtain ⟨y, m, d, g, rfl, hv, _⟩ := all_data_mem today resp e h
  have hyoubi : (mkEntry y m d g).youbi = get_weekday_str y m d := rfl
  rw [hyoubi, get_weekday_str, if_pos hv]
  have hidx : weekdayIdx y m d < weekdays.length :=
    Nat.mod_lt _ (by norm_num)
  rw [List.getD_eq_getElem weekdays "" hidx]
  have hall : ∀ s ∈ weekdays, s ≠ "" := by decide
  exact ⟨List.getElem_mem hidx, hall _ (List.getElem_mem hidx)⟩

/-- Witness for C8 at the concrete outcome `respW`. -/
theorem entry_weekday_valid_witness :
    (mkEntry 2025 4 5 "燃やすごみ").youbi ∈ weekdays ∧
    (mkEntry 2025 4 5 "燃やすごみ").youbi ≠ "" :=
  entry_weekday_valid ⟨2025, 4, 1⟩ respW (mkEntry 2025 4 5 "燃やすごみ")
    (by rw [fetch_calendar_data, sortByDate, List.mem_mergeSort]; decide)


theorem guide_pairs_eq_filter (sub : String → Option String) :
    ∀ (l : List (String × String)),
      ((l.filterMap (fun tu => (sub tu.2).map (fun details =>
          ({ category_name := tu.1
             calendar_name := map_guide_to_calendar tu.1
             details := details
             url := tu.2 } : GuideRecord)))).map
        (fun r => (r.category_name, r.url))) =
      l.filter (fun tu => (sub tu.2).isSome) := by
  intro l
  induction l with
  | nil => rfl
  | cons tu rest ih =>
    rcases hs : sub tu.2 with _ | details
    · simp [List.filterMap_cons, hs, ih]
    · simp [List.filterMap_cons, hs, ih]

theorem countPair_eq_zero_of_not_mem {c : String × String} :
    ∀ {l : List (String × String)}, c ∉ l → countPair c l = 0 := by
  intro l
  induction l with
  | nil => intro _; rfl
  | cons x xs ih =>
    intro hnot
    have hne : x ≠ c := fun he => hnot (he ▸ List.mem_cons_self x xs)
    have hnot2 : c ∉ xs := fun hm => hnot (List.mem_cons_of_mem x hm)
    have hstep : countPair c (x :: xs) = countPair c xs := by
      simp [countPair, List.filter_cons, hne]
    rw [hstep, ih hnot2]

theorem countPair_eq_one {c : String × String} :
    ∀ {l : List (String × String)}, l.Nodup → c ∈ l → countPair c l = 1 := by
  intro l
  induction l with
  | nil => intro _ h; simp at h
  | cons x xs ih =>
    intro hnd hmem
    rcases List.mem_cons.mp hmem with rfl | hmem2
    · have hnotin : c ∉ xs := (List.nodup_cons.mp hnd).1
      have hstep : countPair c (c :: xs) = countPair c xs + 1 := by
        simp [countPair, List.filter_cons]
      rw [hstep, countPair_eq_zero_of_not_mem hnotin]
    · have hne : x ≠ c := fun he => (List.nodup_cons.mp hnd).1 (he ▸ hmem2)
      have hstep : countPair c (x :: xs) = countPair c xs := by
        simp [countPair, List.filter_cons, hne]
      rw [hstep, ih (List.nodup_cons.mp hnd).2 hmem2]

/-- C5: the candidate list is deduplicated, so an anchor pair occurring
twice is fetched exactly once; and the (category_name, url) pairs of the
emitted guide records contain no duplicates. -/
theorem guide_dedup_unique (resolve : String → String) (links : List Anchor)
    (sub : String → Option String) (a : Anchor) (c : String × String)
    (hq : qualify resolve a = some c) (hmem : a ∈ links) :
    (guideFetches resolve links).Nodup ∧
    countPair c (guideFetches resolve links) = 1 ∧
    ((fetch_detailed_guide resolve (.page links) sub).map
      (fun r => (r.category_name, r.url))).Nodup := by
  have hnd : (guideFetches resolve links).Nodup := List.nodup_dedup _
  refine ⟨hnd, ?_, ?_⟩
  · apply countPair_eq_one hnd
    rw [guideFetches, List.mem_dedup]
    exact List.mem_filterMap.mpr ⟨a, hmem, hq⟩
  · have hpairs := guide_pairs_eq_filter sub (guideFetches resolve links)
    show ((guideFetches resolve links).filterMap _).map _ |>.Nodup
    rw [hpairs]
    exact List.Nodup.filter _ hnd

/-- Witness for C5: the duplicated anchor is fetched once and yields one
record. -/
theorem guide_dedup_unique_witness :
    (guideFetches id linksW).Nodup ∧
    countPair ("もやすごみについて", "gomi1.html") (guideFetches id linksW) = 1 ∧
    ((fetch_detailed_guide id (.page linksW) subW).map
      (fun r => (r.category_name, r.url))).Nodup :=
  guide_dedup_unique id linksW subW ⟨some "gomi1.html", "もやすごみについて"⟩
    ("もやすごみについて", "gomi1.html") (by decide) (by decide)

theorem natToString_no_dash (n : Nat) :
    ∀ c ∈ (natToString n).data, c ≠ '-' := by
  intro c hc he
  have hd := natToString_isDigit n c hc
  rw [he] at hd
  simp at hd

theorem pad2_no_dash (m : Nat) : ∀ c ∈ (pad2 m).data, c ≠ '-' := by
  intro c hc he
  have hd := pad2_isDigit m c hc
  rw [he] at hd
  simp at hd

theorem splitAtDash :
    ∀ (a1 a2 : List Char) {b1 b2 : List Char},
      (∀ c ∈ a1, c ≠ '-') → (∀ c ∈ a2, c ≠ '-') →
      a1 ++ '-' :: b1 = a2 ++ '-' :: b2 → a1 = a2 ∧ b1 = b2 := by
  intro a1
  induction a1 with
  | nil =>
    intro a2 b1 b2 _ h2 heq
    cases a2 with
    | nil =>
      simp only [List.nil_append] at heq
      exact ⟨rfl, (List.cons.injEq _ _ _ _ ▸ heq).2⟩
    | cons y ys =>
      exfalso
      simp only [List.nil_append, List.cons_append] at heq
      have hy : y = '-' := ((List.cons.injEq _ _ _ _).mp heq).1.symm
      exact h2 y (List.mem_cons_self y ys) hy
  | cons x xs ih =>
    intro a2 b1 b2 h1 h2 heq
    cases a2 with
    | nil =>
      exfalso
      simp only [List.cons_append, List.nil_append] at heq
      have hx : x = '-' := ((List.cons.injEq _ _ _ _).mp heq).1
      exact h1 x (List.mem_cons_self x xs) hx
    | cons y ys =>
      simp only [List.cons_append] at heq
      obtain ⟨hxy, htl⟩ := (List.cons.injEq _ _ _ _).mp heq
      have h1r : ∀ c ∈ xs, c ≠ '-' := fun c hc => h1 c (List.mem_cons_of_mem x hc)
      have h2r : ∀ c ∈ ys, c ≠ '-' := fun c hc => h2 c (List.mem_cons_of_mem y hc)
      obtain ⟨ha, hb⟩ := ih ys h1r h2r htl
      exact ⟨by rw [hxy, ha], hb⟩

theorem url_data (y m : Nat) :
    (get_url_by_date y m).data =
      urlHead.data ++ ((natToString y).data ++ '-' :: ((pad2 m).data ++ urlTail.data)) := by
  have h1 : ("-" : String).data = ['-'] := rfl
  simp [get_url_by_date, String.data_append, h1, List.append_assoc]

theorem natToString_length_pos (n : Nat) : 1 ≤ (natToString n).length := by
  by_cases h : n = 0
  · subst h; decide
  · have hne : Nat.digits 10 n ≠ [] := Nat.digits_ne_nil_iff_ne_zero.mpr h
    have hlen : (natToString n).length = (Nat.digits 10 n).length := by
      rw [natToString, if_neg h]
      show (((natDigits n).reverse).map Nat.digitChar).length = _
      rw [List.length_map, List.length_reverse, natDigits_eq_digits]
    rw [hlen]
    exact List.length_pos.mpr hne

theorem pad2_length (m : Nat) : 2 ≤ (pad2 m).length := by
  by_cases h : m < 10
  · rw [pad2, if_pos h, String.length_append]
    have := natToString_length_pos m
    have h0 : ("0" : String).length = 1 := rfl
    omega
  · rw [pad2, if_neg h]
    have hm : 0 < m := by omega
    have hdig : Nat.digits 10 m = m % 10 :: Nat.digits 10 (m / 10) :=
      Nat.digits_def' (by norm_num : (1 : Nat) < 10) hm
    have hne : Nat.digits 10 (m / 10) ≠ [] :=
      Nat.digits_ne_nil_iff_ne_zero.mpr (by omega)
    have hlen : (natToString m).length = (Nat.digits 10 m).length := by
      rw [natToString, if_neg (by omega : ¬ m = 0)]
      show (((natDigits m).reverse).map Nat.digitChar).length = _
      rw [List.length_map, List.length_reverse, natDigits_eq_digits]
    rw [hlen, hdig]
    have := List.length_pos.mpr hne
    simp only [List.length_cons]
    omega

/-- C7: the month-URL builder is injective over (year, month) pairs, and
its result always embeds the `YYYY-MM` date string with the month
zero-padded to at least two digits (month 3 appears as "03"). -/
theorem url_injective_zero_padded :
    (∀ y1 m1 y2 m2, get_url_by_date y1 m1 = get_url_by_date y2 m2 →
      y1 = y2 ∧ m1 = m2) ∧
    (∀ y m, ((natToString y ++ "-" ++ pad2 m).data).IsInfix
      (get_url_by_date y m).data) ∧
    (∀ m, 2 ≤ (pad2 m).length) ∧
    (∀ m, m < 10 → pad2 m = "0" ++ natToString m) := by
  refine ⟨?_, ?_, pad2_length, ?_⟩
  · intro y1 m1 y2 m2 h
    have hd := congrArg String.data h
    rw [url_data, url_data] at hd
    have hd2 := List.append_cancel_left hd
    rw [show ((pad2 m1).data ++ urlTail.data) =
        ((pad2 m1).data ++ urlTail.data) from rfl] at hd2
    obtain ⟨hy, hrest⟩ :=
      splitAtDash _ _ (natToString_no_dash y1) (natToString_no_dash y2) hd2
    have hm := List.append_cancel_right hrest
    exact ⟨natToString_injective (String.ext hy), pad2_injective (String.ext hm)⟩
  · intro y m
    refine ⟨urlHead.data, urlTail.data, ?_⟩
    have h1 : ("-" : String).data = ['-'] := rfl
    rw [url_data]
    simp [String.data_append, h1, List.append_assoc]
  · intro m hm
    rw [pad2, if_pos hm]

/-- Witness for C7 at year 2024, month 3. -/
theorem url_injective_zero_padded_witness :
    (2024 = 2024 ∧ 3 = 3) ∧ pad2 3 = "0" ++ natToString 3 :=
  ⟨url_injective_zero_padded.1 2024 3 2024 3 rfl,
   url_injective_zero_padded.2.2.2 3 (by norm_num)⟩
